import Mathlib

/-!
# Verification of the schema model and statement synthesis in `src/relation/table.rs`

This file gives a shallow embedding of the core of the repository: the
`AttributeType` type-declaration parser (`AttributeType::from` and the
`regex_check!` macro), the `Display` renderers for `AttributeType`,
`Constraint`, `Attribute` and `Table`, the `Constraint` equality
(`impl PartialEq for Constraint`), the attribute builder
(`Attribute::from_row`), the table builder (`Table::from_db`) and the
insert-statement renderer (`Table::insert`).

Modelling conventions:
* Rust `String`s are Lean `String`s; where symbolic reasoning is needed the
  underlying `List Char` is used.
* The regex patterns used by `regex_check!` are literal keywords optionally
  followed by `\((\d+)\)` or `\((\d+),(\d+)\)`.  `check.find` returns the
  leftmost match and the macro accepts it only when `tmp.start() == 0`, which
  is equivalent to the pattern matching a prefix of the input; the greedy
  `(\d+)` capture is the maximal run of ASCII digits.
* `str::parse::<u8>` / `::<u16>` on a captured digit string succeeds exactly
  when its decimal value fits the bound; on failure the Rust code panics
  (`.unwrap()`), which this model renders as an absent result (`none`) for
  the whole call.
* `HashSet<Constraint>` is modelled as the list of elements in iteration
  order.  Because the source derives `Hash` over the `ForeignKey` payload
  while its `PartialEq` ignores the payload, `HashSet::insert` consults the
  equality only among stored elements of equal hash: `insertHS` models this
  (with the hasher collision-free on the fed streams), while `insertC` is
  the equality-only approximation, used where the proved facts are
  insensitive to the difference.
* `HashMap<String, String>` is modelled as an association list; the code
  under scrutiny accesses it only through `get`, modelled by `lookupKV`.
* Database interaction (`SHOW FULL COLUMNS`, `SHOW CREATE TABLE`) is
  externalised: builders take the returned rows / extracted foreign-key
  targets as parameters.
-/

namespace DbInterface

/-! ## Character and digit utilities -/

/-- Character lists (so the name resolves unambiguously inside the
`AttributeType` namespace, which has a `Char` constructor). -/
abbrev Chars := List Char

/-- ASCII decimal digit test: models the regex class `\d` restricted to the
digits that `str::parse` accepts. -/
def isDig (c : Char) : Bool := 48 ≤ c.toNat && c.toNat ≤ 57

/-- Decimal value of a digit string (the value `str::parse` computes when it
succeeds). -/
def decVal (ds : List Char) : Nat := ds.foldl (fun a c => 10 * a + (c.toNat - 48)) 0

/-- The decimal digit character for `n < 10` (used to model Rust's `{}`
formatting of unsigned integers). -/
def digitChar : Nat → Char
  | 0 => '0' | 1 => '1' | 2 => '2' | 3 => '3' | 4 => '4'
  | 5 => '5' | 6 => '6' | 7 => '7' | 8 => '8' | 9 => '9'
  | _ => '0'

/-- Decimal rendering of a natural number, most significant digit first:
models Rust's `{}` formatting of `u8` / `u16` values. -/
def natDigits (n : Nat) : List Char :=
  if n < 10 then [digitChar n] else natDigits (n / 10) ++ [digitChar (n % 10)]
decreasing_by exact Nat.div_lt_self (by omega) (by omega)

/-- Models `char::to_ascii_uppercase`: ASCII lowercase letters are shifted to
uppercase, all other characters are unchanged. -/
def asciiUpper (c : Char) : Char :=
  if 97 ≤ c.toNat ∧ c.toNat ≤ 122 then Char.ofNat (c.toNat - 32) else c

/-- Models `str::to_ascii_uppercase`. -/
def toUpper (s : String) : String := String.mk (s.data.map asciiUpper)

/-- `stripPrefix? p s` returns `some rest` when `s = p ++ rest`: the anchored
(offset `0`) literal part of a regex match. -/
def stripPrefix? : List Char → List Char → Option (List Char)
  | [], s => some s
  | a :: p, s =>
    match s with
    | [] => none
    | b :: s' => if a = b then stripPrefix? p s' else none

/-- Capture of a final regex group `(\d+)\)`: a nonempty maximal digit run
followed by `)` (greedy `\d+` followed by a literal `)` admits no
backtracking, so the capture is exactly the maximal run). -/
def matchDigRparen (rest : Chars) : Option Chars :=
  match rest.takeWhile isDig, rest.dropWhile isDig with
  | [], _ => none
  | _, [] => none
  | ds, c :: _ => if c = ')' then some ds else none

/-- Anchored match of the one-parameter regex `LIT\((\d+)\)`: the input must
start with `LIT(`, then a nonempty maximal digit run captured as the group,
then `)`. -/
def matchParam1 (pat s : Chars) : Option Chars :=
  match stripPrefix? (pat ++ ['(']) s with
  | none => none
  | some rest => matchDigRparen rest

/-- Anchored match of the two-parameter regex `LIT\((\d+),(\d+)\)` (used only
for `DECIMAL`): `LIT(`, a digit run, `,`, a digit run, `)`. -/
def matchParam2 (pat s : Chars) : Option (Chars × Chars) :=
  match stripPrefix? (pat ++ ['(']) s with
  | none => none
  | some rest =>
    match rest.takeWhile isDig, rest.dropWhile isDig with
    | [], _ => none
    | _, [] => none
    | d1, c :: rest2 =>
      if c = ',' then (matchDigRparen rest2).map (fun d2 => (d1, d2)) else none

/-- Models `str::parse::<uN>` on a captured digit string: succeeds iff the
decimal value fits the width bound (`255` for `u8`, `65535` for `u16`). -/
def parseNum (bound : Nat) (ds : List Char) : Option Nat :=
  if decVal ds ≤ bound then some (decVal ds) else none

/-! ## `AttributeType` and its parser (`AttributeType::from`) -/

/-- The `AttributeType` enum of `table.rs`, verbatim.  Numeric widths are
`Nat`s; their `u8`/`u16` bounds appear in the parser. -/
inductive AttributeType where
  | Char (val : Nat)
  | VarChar (val : Nat)
  | Binary (val : Nat)
  | VarBinary (val : Nat)
  | TinyBlob
  | TinyText
  | Text
  | Blob (val : Nat)
  | MediumText
  | MediumBlob
  | LongText
  | LongBlob
  | Enum (val : List String)
  | Set (val : List AttributeType)
  | Bit (val : Nat)
  | TinyInt (val : Nat)
  | Bool
  | Boolean
  | SmallInt (val : Nat)
  | MediumInt (val : Nat)
  | Int (val : Nat)
  | BigInt (val : Nat)
  | Float (val : Nat)
  | Decimal (val1 val2 : Nat)
  | Date
  | DateTime
  | TimeStamp
  | Time
  | Year

/-- One `regex_check!` invocation: a literal pattern (no capture), a
one-capture pattern with its parse bound and constructor, or the two-capture
`DECIMAL` pattern. -/
inductive Rule where
  | lit (pat : List Char) (out : AttributeType)
  | p1 (pat : List Char) (bound : Nat) (ctor : Nat → AttributeType)
  | p2 (pat : List Char) (ctor : Nat → Nat → AttributeType)

/-- Running one `regex_check!`: `none` means the pattern did not match at
offset 0 (fall through to the next check); `some res` means it matched and
the macro returns, with `res = none` when the numeric `.parse().unwrap()`
panics and `res = some v` otherwise. -/
def applyRule : Rule → List Char → Option (Option AttributeType)
  | .lit pat out, s => (stripPrefix? pat s).map (fun _ => some out)
  | .p1 pat bound ctor, s => (matchParam1 pat s).map (fun ds => (parseNum bound ds).map ctor)
  | .p2 pat ctor, s =>
    (matchParam2 pat s).map (fun d =>
      match parseNum 255 d.1, parseNum 255 d.2 with
      | some a, some b => some (ctor a b)
      | _, _ => none)

/-- The `regex_check!` sequence of `AttributeType::from`, in source order.
Note the case-sensitive `BigInt\((\d+)\)` pattern (the only non-uppercase
one) and the absence of any pattern for `MediumBlob`, `Enum` and `Set`. -/
def rules : List Rule := [
  .p1 "CHAR".data 255 .Char,
  .p1 "VARCHAR".data 65535 .VarChar,
  .p1 "BINARY".data 255 .Binary,
  .p1 "VARBINARY".data 65535 .VarBinary,
  .lit "TINYBLOB".data .TinyBlob,
  .lit "TINYTEXT".data .TinyText,
  .lit "TEXT".data .Text,
  .p1 "BLOB".data 65535 .Blob,
  .lit "MEDIUMTEXT".data .MediumText,
  .lit "LONGTEXT".data .LongText,
  .lit "LONGBLOB".data .LongBlob,
  .p1 "BIT".data 255 .Bit,
  .p1 "TINYINT".data 255 .TinyInt,
  .lit "BOOL".data .Bool,
  .lit "BOOLEAN".data .Boolean,
  .p1 "SMALLINT".data 255 .SmallInt,
  .p1 "MEDIUMINT".data 255 .MediumInt,
  .p1 "INT".data 255 .Int,
  .p1 "INTEGER".data 255 .Int,
  .p1 "BigInt".data 255 .BigInt,
  .p1 "FLOAT".data 255 .Float,
  .p2 "DECIMAL".data .Decimal,
  .lit "DATE".data .Date,
  .lit "DATETIME".data .DateTime,
  .lit "TIMESTAMP".data .TimeStamp,
  .lit "TIME".data .Time,
  .lit "YEAR".data .Year ]

/-- Sequential execution of the checks: the first matching pattern decides
the result (`return Some(...)` in the macro); if none matches the function
returns `None`. -/
def runRules : List Rule → List Char → Option AttributeType
  | [], _ => none
  | r :: rs, s =>
    match applyRule r s with
    | none => runRules rs s
    | some res => res

/-- `AttributeType::from` on the underlying character list. -/
def AttributeType.fromChars (s : Chars) : Option AttributeType := runRules rules s

/-- `AttributeType::from(raw_str)` (named `fromRaw` because `from` is a Lean
keyword). -/
def AttributeType.fromRaw (s : String) : Option AttributeType := AttributeType.fromChars s.data

/-- Number of the parser's patterns that match the input when matching is
anchored at offset 0. -/
def matchCount (s : List Char) : Nat := (rules.filter (fun r => (applyRule r s).isSome)).length

/-! ## `impl fmt::Display for AttributeType` -/

/-- The `Display` implementation for `AttributeType`, arm by arm.  The
`Enum`/`Set` arms are `todo!()` (a panic), modelled as `none`.  Note the
source's literal misspelling `decmimal` in the `Decimal` arm and the mixed
case `timeStamp`. -/
def AttributeType.displayChars : AttributeType → Option Chars
  | .Char v => some ("char(".data ++ (natDigits v ++ [')']))
  | .VarChar v => some ("varchar(".data ++ (natDigits v ++ [')']))
  | .Binary v => some ("binary(".data ++ (natDigits v ++ [')']))
  | .VarBinary v => some ("varbinary(".data ++ (natDigits v ++ [')']))
  | .TinyBlob => some "tinyblob".data
  | .TinyText => some "tinytext".data
  | .Text => some "text".data
  | .Blob v => some ("blob(".data ++ (natDigits v ++ [')']))
  | .MediumText => some "mediumtext".data
  | .MediumBlob => some "mediumblob".data
  | .LongText => some "longtext".data
  | .LongBlob => some "longblob".data
  | .Enum _ => none
  | .Set _ => none
  | .Bit v => some ("bit(".data ++ (natDigits v ++ [')']))
  | .TinyInt v => some ("tinyint(".data ++ (natDigits v ++ [')']))
  | .Bool => some "bool".data
  | .Boolean => some "boolean".data
  | .SmallInt v => some ("smallint(".data ++ (natDigits v ++ [')']))
  | .MediumInt v => some ("mediumint(".data ++ (natDigits v ++ [')']))
  | .Int v => some ("int(".data ++ (natDigits v ++ [')']))
  | .BigInt v => some ("bigint(".data ++ (natDigits v ++ [')']))
  | .Float v => some ("float(".data ++ (natDigits v ++ [')']))
  | .Decimal v1 v2 => some ("decmimal(".data ++ (natDigits v1 ++ ',' :: (natDigits v2 ++ [')'])))
  | .Date => some "date".data
  | .DateTime => some "datetime".data
  | .TimeStamp => some "timeStamp".data
  | .Time => some "time".data
  | .Year => some "year".data

/-- `Display` for `AttributeType` at the `String` level. -/
def AttributeType.display (t : AttributeType) : Option String :=
  (AttributeType.displayChars t).map String.mk

/-- The round trip of claim C2: render a variant with the type-display
function, upper-case the result the way `Attribute::from_row` upper-cases the
raw metadata type string, and re-parse it with `AttributeType::from`. -/
def AttributeType.roundtrip (t : AttributeType) : Option AttributeType :=
  (AttributeType.displayChars t).bind (fun cs => AttributeType.fromChars (cs.map asciiUpper))

/-- What `AttributeType::from` can output, per variant: numeric payloads are
within the parsed width bound; `MediumBlob`, `Enum` and `Set` have no pattern
at all; the `DATETIME` check is shadowed by `DATE` and the `BOOLEAN` check by
`BOOL`, so `DateTime` and `Boolean` are never produced; a `BigInt` output
requires the case-sensitive prefix `BigInt(` in the input. -/
def ReachShape (v : AttributeType) (s : Chars) : Prop :=
  match v with
  | .Char n => n ≤ 255
  | .VarChar n => n ≤ 65535
  | .Binary n => n ≤ 255
  | .VarBinary n => n ≤ 65535
  | .TinyBlob => True
  | .TinyText => True
  | .Text => True
  | .Blob n => n ≤ 65535
  | .MediumText => True
  | .MediumBlob => False
  | .LongText => True
  | .LongBlob => True
  | .Enum _ => False
  | .Set _ => False
  | .Bit n => n ≤ 255
  | .TinyInt n => n ≤ 255
  | .Bool => True
  | .Boolean => False
  | .SmallInt n => n ≤ 255
  | .MediumInt n => n ≤ 255
  | .Int n => n ≤ 255
  | .BigInt n => n ≤ 255 ∧ ∃ rest, stripPrefix? ("BigInt".data ++ ['(']) s = some rest
  | .Float n => n ≤ 255
  | .Decimal a b => a ≤ 255 ∧ b ≤ 255
  | .Date => True
  | .DateTime => False
  | .TimeStamp => True
  | .Time => True
  | .Year => True

/-- For claim C2: the round trip reproduces the variant, except for the
`Decimal` variants (whose display form carries the source's `decmimal`
misspelling) and the `BigInt` variants (whose pattern is the only
case-sensitive one, so the upper-cased display `BIGINT(..)` no longer
matches): those re-parse to `none`. -/
def RoundtripOk (v : AttributeType) : Prop :=
  match v with
  | .Decimal _ _ => AttributeType.roundtrip v = none
  | .BigInt _ => AttributeType.roundtrip v = none
  | _ => AttributeType.roundtrip v = some v

/-! ## `Constraint` and its `PartialEq` / `HashSet` model -/

/-- The `Constraint` enum of `table.rs`. -/
inductive Constraint where
  | NotNull
  | Unique
  | ForeignKey (table_name : String) (attribute_name : String)
  | AutoIncrement
deriving DecidableEq

/-- `impl PartialEq for Constraint`: equality of the two discriminants only
(`core::mem::discriminant(self) == core::mem::discriminant(other)`), so any
two `ForeignKey` values compare equal whatever their payloads. -/
def Constraint.eqImpl : Constraint → Constraint → Bool
  | .NotNull, .NotNull => true
  | .Unique, .Unique => true
  | .ForeignKey _ _, .ForeignKey _ _ => true
  | .AutoIncrement, .AutoIncrement => true
  | _, _ => false

/-- `HashSet<Constraint>` is modelled as the list of stored elements in
iteration order.  `insertC` is the *equality-only approximation* of
`HashSet::insert`: append unless an element equal under `Constraint::eq` is
already stored.  The source derives `Hash` over the `ForeignKey` payload
while `eq` ignores it, so the real probe additionally requires equal hashes
and keeps a second differently-targeted `ForeignKey` that this approximation
drops — `insertHS` below is the hash-aware model.  The facts proved about
`Attribute::from_row` (membership of each constraint kind, existence of a
foreign key) are insensitive to the difference: the two models disagree only
on how many foreign keys are stored, never on which kinds are present. -/
def insertC (s : List Constraint) (c : Constraint) : List Constraint :=
  if s.any (fun c' => Constraint.eqImpl c' c) then s else s ++ [c]

/-- The stream the derived `#[derive(Hash)]` implementation feeds into the
hasher for a `Constraint`: the variant's discriminant, then its `String`
fields.  Distinct constraints feed distinct streams, and the hasher
(SipHash) is modelled collision-free on them: two constraints hash equal
exactly when their streams coincide. -/
def Constraint.hashStream : Constraint → Nat × List String
  | .NotNull => (0, [])
  | .Unique => (1, [])
  | .ForeignKey t a => (2, [t, a])
  | .AutoIncrement => (3, [])

/-- The hash-aware model of `HashSet::insert`: the probe compares the new
element (under `Constraint::eq`) only against stored elements with the same
hash, so an element is dropped exactly when an equal-hash, `eq`-equal entry
is already stored; otherwise it is appended.  With the derived `Hash`
hashing the `ForeignKey` payload that `eq` ignores, this keeps a second
foreign key whose target differs. -/
def insertHS (s : List Constraint) (c : Constraint) : List Constraint :=
  if s.any (fun c' =>
      decide (Constraint.hashStream c' = Constraint.hashStream c)
        && Constraint.eqImpl c' c)
  then s else s ++ [c]

/-- `impl fmt::Display for Constraint`. -/
def Constraint.display : Constraint → String
  | .NotNull => "Not Null"
  | .Unique => "Unique"
  | .ForeignKey t a => t ++ "(" ++ a ++ ")"
  | .AutoIncrement => "Auto_increment"

/-- Number of foreign-key entries a constraint set holds. -/
def countFK (s : List Constraint) : Nat :=
  (s.filter (fun c => match c with | .ForeignKey _ _ => true | _ => false)).length

/-! ## `Attribute` -/

/-- The `Attribute` struct: name, parsed type, constraint set (modelled in
iteration order). -/
structure Attribute where
  name : String
  data_type : AttributeType
  constraint : List Constraint

/-- One row of `SHOW FULL COLUMNS FROM <table>`, with the fields
`Attribute::from_row` reads: 0 = name, 1 = raw type, 3 = nullability
(`"YES"`/`"NO"`), 4 = key classification (`""`/`"PRI"`/`"UNI"`/`"MUL"`),
6 = extra (e.g. `"auto_increment"`).  Fields 2 and 5 are carried but
unread. -/
structure MetaRow where
  name : String
  colType : String
  collation : String
  nullable : String
  key : String
  defaultVal : String
  extra : String

/-- The first two constraint blocks of `Attribute::from_row`: starting from
an empty set, insert `NotNull` when the nullability flag equals `"NO"`, then
`AutoIncrement` when the extra flag equals `"auto_increment"`. -/
def baseC (nullable extra : String) : List Constraint :=
  let tmp : List Constraint := []
  let tmp := if nullable = "NO" then insertC tmp .NotNull else tmp
  let tmp := if extra = "auto_increment" then insertC tmp .AutoIncrement else tmp
  tmp

/-- The full constraint-set block of `Attribute::from_row`: after the two
blocks of `baseC`, either insert `Unique` (key flag `"UNI"`) or one
`ForeignKey` per extracted lookup result (key flag `"MUL"`); any other key
flag adds nothing. -/
def buildConstraints (nullable key extra : String) (fks : List (String × String)) :
    List Constraint :=
  let tmp := baseC nullable extra
  if key = "UNI" then insertC tmp .Unique
  else if key = "MUL" then
    fks.foldl (fun acc p => insertC acc (.ForeignKey p.1 p.2)) tmp
  else tmp

/-- `Attribute::from_row`.  The database lookup performed for a `"MUL"` key
(`SHOW CREATE TABLE` plus the foreign-key regex, whose failure panics) is
externalised: `fks` is the list of (referenced table, referenced attribute)
pairs extracted from the returned rows.  Returns `none` when
`AttributeType::from` rejects the upper-cased raw type. -/
def Attribute.fromRow (row : MetaRow) (fks : List (String × String)) : Option Attribute :=
  match AttributeType.fromRaw (toUpper row.colType) with
  | none => none
  | some dt =>
    some { name := row.name
           data_type := dt
           constraint := buildConstraints row.nullable row.key row.extra fks }

/-- `impl fmt::Display for Attribute`: collects the non-foreign-key
constraint words in iteration order (joined by spaces), remembers the last
foreign-key clause, renders `"<name> <type>[ <words>]"` and appends
`", FOREIGN KEY(<name>) REFERENCES <target>"` when a foreign key was seen.
`none` models the `todo!()` panic of the `Enum`/`Set` type display. -/
def Attribute.display (a : Attribute) : Option String :=
  match AttributeType.display a.data_type with
  | none => none
  | some ty =>
    let acc := a.constraint.foldl
      (fun (acc : Option String × List String) c =>
        match c with
        | .ForeignKey t at' =>
          (some ("FOREIGN KEY(" ++ a.name ++ ") REFERENCES " ++
            Constraint.display (.ForeignKey t at')), acc.2)
        | _ => (acc.1, acc.2 ++ [Constraint.display c]))
      (none, [])
    let constraint_str := String.intercalate " " acc.2
    let tmp :=
      if constraint_str = "" then a.name ++ " " ++ ty
      else a.name ++ " " ++ ty ++ " " ++ constraint_str
    match acc.1 with
    | some fk => some (tmp ++ ", " ++ fk)
    | none => some tmp

/-! ## `Table` -/

/-- The `Table` struct: name, ordered attribute list, optional primary-key
index into that list. -/
structure Table where
  name : String
  attributes : List Attribute
  primary_key : Option Nat

/-- `HashMap::get` on the association-list model of `HashMap<String, String>`. -/
def lookupKV (vs : List (String × String)) (k : String) : Option String :=
  match vs with
  | [] => none
  | (k', v) :: rest => if k' = k then some v else lookupKV rest k

/-- Models the byte slice `&s[1..]` of `Table::insert` (always taken after a
leading one-byte `','`). -/
def dropFirst (s : String) : String := String.mk s.data.tail

/-- The fold step of `Table::insert`:
`(format!("{},{}", columns, column), format!("{},{}", values, value))`. -/
def insStep (cv : String × String) (p : String × String) : String × String :=
  (cv.1 ++ "," ++ p.1, cv.2 ++ "," ++ p.2)

/-- `Table::insert`: filter the attributes to those present as keys of the
value map (declaration order preserved), take each value verbatim (every
arm of the `match` on the type is commented out in the source), fold the
two comma-prefixed strings, return `None` when both are empty and otherwise
slice off the leading commas and assemble the statement. -/
def Table.insert (t : Table) (values : List (String × String)) : Option String :=
  let filtered := t.attributes.filter (fun attr => (lookupKV values attr.name).isSome)
  let pairs := filtered.map (fun attr => (attr.name, (lookupKV values attr.name).getD ""))
  let cv := pairs.foldl insStep ("", "")
  if cv.1 = "" ∧ cv.2 = "" then none
  else
    some ("INSERT INTO " ++ t.name ++ "(" ++ dropFirst cv.1 ++ ") VALUES (" ++
      dropFirst cv.2 ++ ")")

/-- Rendering of the attribute list of `impl Display for Table` (the
`Vec<String>` collected from `attr.to_string()`): `none` models a panicking
attribute display. -/
def displayAll : List Attribute → Option (List String)
  | [] => some []
  | a :: as =>
    match Attribute.display a, displayAll as with
    | some s, some ss => some (s :: ss)
    | _, _ => none

/-- `impl Display for Table` (the string `Table::create` wraps in `DDL`):
render each attribute, join with `","`, and branch on the primary key.
`none` models the panics (attribute display `todo!()`, or the out-of-bounds
index `self.attributes[index]`). -/
def Table.create (t : Table) : Option String :=
  match displayAll t.attributes with
  | none => none
  | some strs =>
    let attr := String.intercalate "," strs
    match t.primary_key with
    | some index =>
      match t.attributes.get? index with
      | none => none
      | some a =>
        some ("CREATE TABLE " ++ t.name ++ " (" ++ attr ++ ", PRIMARY KEY(" ++
          a.name ++ "))")
    | none => some ("CREATE TABLE " ++ t.name ++ " (" ++ attr ++ ")")

/-- `RelationMethods::select` for `Table`. -/
def Table.select (t : Table) : String := "SELECT * FROM " ++ t.name

/-- `RelationMethods::drop` for `Table` (named `dropT`: `drop` collides with
`List.drop` lemma usage). -/
def Table.dropT (t : Table) : String := "DROP TABLE " ++ t.name

/-- The filtering loop of `Table::from_db`: walk the `(parsed attribute,
is-primary)` pairs, drop the unparsed ones, record `primary_key := col_num`
at a surviving primary row, and advance `col_num` only at surviving
non-primary rows (mirroring the source's `filter_map` closure over the
mutable `primary_key` / `col_num`). -/
def buildAux : List (Option Attribute × Bool) → Option Nat → Nat → List Attribute × Option Nat
  | [], pk, _ => ([], pk)
  | (none, _) :: rest, pk, col => buildAux rest pk col
  | (some a, true) :: rest, _, col =>
    let r := buildAux rest (some col) col
    (a :: r.1, r.2)
  | (some a, false) :: rest, pk, col =>
    let r := buildAux rest pk (col + 1)
    (a :: r.1, r.2)

/-- The pure core of `Table::from_db`, over the already-tagged rows. -/
def Table.fromRows (table_name : String) (rows : List (Option Attribute × Bool)) : Table :=
  let r := buildAux rows none 0
  { name := table_name, attributes := r.1, primary_key := r.2 }

/-- `Table::from_db`: the `SHOW FULL COLUMNS` rows are tagged with
`row.get(4) == "PRI"` and fed through `Attribute::from_row`; the per-row
foreign-key lookup is externalised as `fkOf`. -/
def Table.fromDb (table_name : String) (rows : List MetaRow)
    (fkOf : MetaRow → List (String × String)) : Table :=
  Table.fromRows table_name
    (rows.map (fun r => (Attribute.fromRow r (fkOf r), r.key == "PRI")))

/-! ## Concrete tables and value maps from the spec's end-to-end scenarios -/

/-- The one-attribute table of the CREATE scenarios (`attr_1: TEXT`, no
constraints, primary key at position 0). -/
def tableOne : Table :=
  { name := "table_1"
    attributes := [{ name := "attr_1", data_type := .Text, constraint := [] }]
    primary_key := some 0 }

/-- The five-attribute table of the INSERT scenarios. -/
def tableFive : Table :=
  { name := "table_1"
    attributes := [
      { name := "PersonID", data_type := .Int 16, constraint := [] },
      { name := "LastName", data_type := .VarChar 255, constraint := [] },
      { name := "FirstName", data_type := .VarChar 255, constraint := [] },
      { name := "Address", data_type := .VarChar 255, constraint := [] },
      { name := "City", data_type := .VarChar 255, constraint := [] }]
    primary_key := none }

/-- The full value map of the first INSERT scenario. -/
def valuesAll : List (String × String) :=
  [("PersonID", "23"), ("LastName", "'Doe'"), ("FirstName", "'John'"),
   ("Address", "'1st Street'"), ("City", "'Night City'")]

/-- The three-key value map of the second INSERT scenario. -/
def valuesThree : List (String × String) :=
  [("PersonID", "23"), ("LastName", "'Doe'"), ("FirstName", "'John'")]

/-! ## Parser lemmas -/

theorem stripPrefix?_self_append (p r : Chars) : stripPrefix? p (p ++ r) = some r := by
  induction p with
  | nil => rfl
  | cons a p ih => simp [stripPrefix?, ih]

theorem stripPrefix?_eq_some (p : Chars) :
    ∀ s r, stripPrefix? p s = some r → p ++ r = s := by
  induction p with
  | nil => intro s r h; simp [stripPrefix?] at h; simp [h]
  | cons a p ih =>
    intro s r h
    cases s with
    | nil => simp [stripPrefix?] at h
    | cons b s =>
      simp only [stripPrefix?] at h
      split at h
      · next hab => simp [hab, ih s r h]
      · exact absurd h (by simp)

theorem stripPrefix?_append_none (p q : Chars) :
    ∀ s, stripPrefix? p s = none → stripPrefix? (p ++ q) s = none := by
  induction p with
  | nil => intro s h; simp [stripPrefix?] at h
  | cons a p ih =>
    intro s h
    cases s with
    | nil => rfl
    | cons b s =>
      simp only [stripPrefix?] at h ⊢
      split at h
      · next hab => simp only [hab, if_pos rfl]; exact ih s h
      · next hab => simp [hab]

theorem takeWhile_digits (ds : Chars) (c : Char) (rest : Chars)
    (h : ∀ x ∈ ds, isDig x = true) (hc : isDig c = false) :
    (ds ++ c :: rest).takeWhile isDig = ds ∧ (ds ++ c :: rest).dropWhile isDig = c :: rest := by
  induction ds with
  | nil => simp [List.takeWhile, List.dropWhile, hc]
  | cons d ds ih =>
    have hd : isDig d = true := h d (by simp)
    have ih' := ih (fun x hx => h x (by simp [hx]))
    simp [List.takeWhile, List.dropWhile, hd, ih'.1, ih'.2]

theorem matchDigRparen_exact (ds rest : Chars) (h1 : ds ≠ [])
    (h2 : ∀ x ∈ ds, isDig x = true) :
    matchDigRparen (ds ++ ')' :: rest) = some ds := by
  have ht := takeWhile_digits ds ')' rest h2 (by decide)
  cases ds with
  | nil => exact absurd rfl h1
  | cons d ds' =>
    simp only [matchDigRparen, ht.1, ht.2]
    rfl

theorem matchParam1_exact (pat ds : Chars) (h1 : ds ≠ [])
    (h2 : ∀ x ∈ ds, isDig x = true) :
    matchParam1 pat (pat ++ '(' :: (ds ++ [')'])) = some ds := by
  have hs : stripPrefix? (pat ++ ['(']) (pat ++ '(' :: (ds ++ [')'])) = some (ds ++ [')']) := by
    have := stripPrefix?_self_append (pat ++ ['(']) (ds ++ [')'])
    simpa using this
  simp only [matchParam1, hs]
  exact matchDigRparen_exact ds [] h1 h2

theorem matchParam2_exact (pat d1 d2 : Chars) (h1 : d1 ≠ []) (h2 : ∀ x ∈ d1, isDig x = true)
    (h3 : d2 ≠ []) (h4 : ∀ x ∈ d2, isDig x = true) :
    matchParam2 pat (pat ++ '(' :: (d1 ++ ',' :: (d2 ++ [')']))) = some (d1, d2) := by
  have hs : stripPrefix? (pat ++ ['(']) (pat ++ '(' :: (d1 ++ ',' :: (d2 ++ [')']))) =
      some (d1 ++ ',' :: (d2 ++ [')'])) := by
    have := stripPrefix?_self_append (pat ++ ['(']) (d1 ++ ',' :: (d2 ++ [')']))
    simpa using this
  have ht1 := takeWhile_digits d1 ',' (d2 ++ [')']) h2 (by decide)
  cases d1 with
  | nil => exact absurd rfl h1
  | cons e1 es1 =>
    simp only [matchParam2, hs, ht1.1, ht1.2]
    rw [show matchDigRparen (d2 ++ [')']) = some d2 from matchDigRparen_exact d2 [] h3 h4]
    rfl

theorem matchParam1_some_strip (pat s ds : Chars) (h : matchParam1 pat s = some ds) :
    ∃ rest, stripPrefix? (pat ++ ['(']) s = some rest := by
  simp only [matchParam1] at h
  cases hs : stripPrefix? (pat ++ ['(']) s with
  | none => rw [hs] at h; simp at h
  | some rest => exact ⟨rest, rfl⟩

theorem parseNum_eq_some {b : Nat} {ds : Chars} {n : Nat} :
    parseNum b ds = some n ↔ decVal ds ≤ b ∧ n = decVal ds := by
  simp only [parseNum]
  split
  · next h => simp [h, eq_comm]
  · next h => simp [h]

/-! ## `natDigits` lemmas -/

theorem digitChar_isDig {n : Nat} (h : n < 10) : isDig (digitChar n) = true := by
  interval_cases n <;> decide

theorem digitChar_toNat {n : Nat} (h : n < 10) : (digitChar n).toNat - 48 = n := by
  interval_cases n <;> decide

theorem natDigits_ne_nil (n : Nat) : natDigits n ≠ [] := by
  rw [natDigits]
  split
  · simp
  · simp

theorem natDigits_all_dig (n : Nat) : ∀ x ∈ natDigits n, isDig x = true := by
  induction n using Nat.strong_induction_on with
  | _ n ih =>
    rw [natDigits]
    split
    · next h => intro x hx; simp at hx; subst hx; exact digitChar_isDig h
    · next h =>
      intro x hx
      simp only [List.mem_append, List.mem_singleton] at hx
      rcases hx with hx | hx
      · exact ih (n / 10) (Nat.div_lt_self (by omega) (by omega)) x hx
      · subst hx; exact digitChar_isDig (Nat.mod_lt _ (by omega))

theorem decVal_append_singleton (xs : Chars) (c : Char) :
    decVal (xs ++ [c]) = 10 * decVal xs + (c.toNat - 48) := by
  simp [decVal, List.foldl_append]

theorem decVal_natDigits (n : Nat) : decVal (natDigits n) = n := by
  induction n using Nat.strong_induction_on with
  | _ n ih =>
    rw [natDigits]
    split
    · next h =>
      simp [decVal, digitChar_toNat h]
    · next h =>
      rw [decVal_append_singleton, ih (n / 10) (Nat.div_lt_self (by omega) (by omega)),
        digitChar_toNat (Nat.mod_lt _ (by omega))]
      omega

theorem asciiUpper_of_isDig {c : Char} (h : isDig c = true) : asciiUpper c = c := by
  simp only [isDig, Bool.and_eq_true, decide_eq_true_eq] at h
  simp only [asciiUpper]
  rw [if_neg]
  omega

theorem map_asciiUpper_digits (ds : Chars) (h : ∀ x ∈ ds, isDig x = true) :
    ds.map asciiUpper = ds := by
  induction ds with
  | nil => rfl
  | cons d ds ih =>
    simp only [List.map_cons, asciiUpper_of_isDig (h d (by simp)),
      ih (fun x hx => h x (by simp [hx]))]

theorem map_asciiUpper_natDigits (n : Nat) : (natDigits n).map asciiUpper = natDigits n :=
  map_asciiUpper_digits _ (natDigits_all_dig n)

/-! ## Running the check sequence -/

theorem runRules_eq_drop (rs : List Rule) (k : Nat) (s : Chars)
    (h : (rs.take k).all (fun r => (applyRule r s).isNone) = true) :
    runRules rs s = runRules (rs.drop k) s := by
  induction k generalizing rs with
  | zero => rfl
  | succ k ih =>
    cases rs with
    | nil => rfl
    | cons r rs =>
      simp only [List.take, List.all_cons, Bool.and_eq_true, Option.isNone_iff_eq_none] at h
      simp only [runRules, h.1, List.drop]
      exact ih rs h.2

/-- Generic evaluation of `AttributeType::from` on an input that the
one-capture rule at position `k` matches, all earlier checks having failed. -/
theorem fromChars_hit_p1 (k : Nat) (pat : Chars) (b : Nat) (ctor : Nat → AttributeType) (n : Nat)
    (hrule : rules.drop k = Rule.p1 pat b ctor :: rules.drop (k + 1))
    (hskip : ((rules.take k).all
      (fun r => (applyRule r (pat ++ '(' :: (natDigits n ++ [')']))).isNone)) = true)
    (hb : n ≤ b) :
    AttributeType.fromChars (pat ++ '(' :: (natDigits n ++ [')'])) = some (ctor n) := by
  unfold AttributeType.fromChars
  rw [runRules_eq_drop rules k _ hskip, hrule]
  simp only [runRules, applyRule,
    matchParam1_exact pat (natDigits n) (natDigits_ne_nil n) (natDigits_all_dig n)]
  simp [parseNum, decVal_natDigits, hb]

/-- Order-aware induction over the check sequence: a successful run singles
out the first matching rule, all earlier rules having failed. -/
theorem runRules_ind (P : Prop) (s : Chars) (v : AttributeType) :
    ∀ rs : List Rule, runRules rs s = some v →
    (∀ (k : Nat) (hk : k < rs.length),
        (∀ (j : Nat) (hj : j < k), applyRule (rs.get ⟨j, Nat.lt_trans hj hk⟩) s = none) →
        applyRule (rs.get ⟨k, hk⟩) s = some (some v) → P) → P := by
  intro rs
  induction rs with
  | nil => intro h _; simp [runRules] at h
  | cons r rs ih =>
    intro h H
    cases happ : applyRule r s with
    | some res =>
      simp only [runRules, happ] at h
      subst h
      exact H 0 (by simp) (fun j hj => absurd hj (Nat.not_lt_zero j)) happ
    | none =>
      simp only [runRules, happ] at h
      refine ih h ?_
      intro k hk hprev hhit
      refine H (k + 1) (Nat.succ_lt_succ hk) ?_ hhit
      intro j hj
      cases j with
      | zero => exact happ
      | succ j => exact hprev j (Nat.lt_of_succ_lt_succ hj)

/-! ## What each kind of check can produce -/

theorem applyLit_some {pat : Chars} {out : AttributeType} {s : Chars} {w : AttributeType}
    (h : applyRule (.lit pat out) s = some (some w)) :
    w = out ∧ ∃ rest, stripPrefix? pat s = some rest := by
  simp only [applyRule] at h
  cases hs : stripPrefix? pat s with
  | none => rw [hs] at h; simp at h
  | some rest =>
    rw [hs] at h
    simp only [Option.map_some', Option.some.injEq] at h
    exact ⟨h.symm, rest, rfl⟩

theorem applyLit_none {pat : Chars} {out : AttributeType} {s : Chars}
    (h : applyRule (.lit pat out) s = none) : stripPrefix? pat s = none := by
  simp only [applyRule] at h
  cases hs : stripPrefix? pat s with
  | none => rfl
  | some rest => rw [hs] at h; simp at h

theorem applyP1_some {pat : Chars} {b : Nat} {ctor : Nat → AttributeType} {s : Chars}
    {w : AttributeType} (h : applyRule (.p1 pat b ctor) s = some (some w)) :
    ∃ n, n ≤ b ∧ w = ctor n ∧ ∃ rest, stripPrefix? (pat ++ ['(']) s = some rest := by
  simp only [applyRule] at h
  cases hm : matchParam1 pat s with
  | none => rw [hm] at h; simp at h
  | some ds =>
    rw [hm] at h
    simp only [Option.map_some', Option.some.injEq] at h
    cases hp : parseNum b ds with
    | none => rw [hp] at h; simp at h
    | some n =>
      rw [hp] at h
      simp only [Option.map_some', Option.some.injEq] at h
      obtain ⟨hle, hn⟩ := parseNum_eq_some.mp hp
      exact ⟨n, hn ▸ hle, h.symm, matchParam1_some_strip pat s ds hm⟩

theorem applyP2_some {pat : Chars} {ctor : Nat → Nat → AttributeType} {s : Chars}
    {w : AttributeType} (h : applyRule (.p2 pat ctor) s = some (some w)) :
    ∃ a c, a ≤ 255 ∧ c ≤ 255 ∧ w = ctor a c := by
  simp only [applyRule] at h
  cases hm : matchParam2 pat s with
  | none => rw [hm] at h; simp at h
  | some d =>
    rw [hm] at h
    simp only [Option.map_some', Option.some.injEq] at h
    cases hp1 : parseNum 255 d.1 with
    | none => rw [hp1] at h; simp at h
    | some a =>
      cases hp2 : parseNum 255 d.2 with
      | none => rw [hp1, hp2] at h; simp at h
      | some c =>
        rw [hp1, hp2] at h
        simp only [Option.some.injEq] at h
        obtain ⟨ha, ha'⟩ := parseNum_eq_some.mp hp1
        obtain ⟨hc, hc'⟩ := parseNum_eq_some.mp hp2
        exact ⟨a, c, ha' ▸ ha, hc' ▸ hc, h.symm⟩

theorem fromChars_shape (s : Chars) (v : AttributeType)
    (h : AttributeType.fromChars s = some v) : ReachShape v s := by
  refine runRules_ind (ReachShape v s) s v rules h ?_
  intro k hk hprev hhit
  have hk27 : k < 27 := by simpa [rules] using hk
  interval_cases k
  · obtain ⟨n, hn, rfl, -⟩ := applyP1_some hhit; exact hn
  · obtain ⟨n, hn, rfl, -⟩ := applyP1_some hhit; exact hn
  · obtain ⟨n, hn, rfl, -⟩ := applyP1_some hhit; exact hn
  · obtain ⟨n, hn, rfl, -⟩ := applyP1_some hhit; exact hn
  · obtain ⟨rfl, -⟩ := applyLit_some hhit; trivial
  · obtain ⟨rfl, -⟩ := applyLit_some hhit; trivial
  · obtain ⟨rfl, -⟩ := applyLit_some hhit; trivial
  · obtain ⟨n, hn, rfl, -⟩ := applyP1_some hhit; exact hn
  · obtain ⟨rfl, -⟩ := applyLit_some hhit; trivial
  · obtain ⟨rfl, -⟩ := applyLit_some hhit; trivial
  · obtain ⟨rfl, -⟩ := applyLit_some hhit; trivial
  · obtain ⟨n, hn, rfl, -⟩ := applyP1_some hhit; exact hn
  · obtain ⟨n, hn, rfl, -⟩ := applyP1_some hhit; exact hn
  · obtain ⟨rfl, -⟩ := applyLit_some hhit; trivial
  · -- BOOLEAN is shadowed by BOOL
    obtain ⟨rfl, rest, hrest⟩ := applyLit_some hhit
    have hb : stripPrefix? "BOOL".data s = none := applyLit_none (hprev 13 (by omega))
    have hcontra := stripPrefix?_append_none "BOOL".data "EAN".data s hb
    rw [show "BOOL".data ++ "EAN".data = "BOOLEAN".data from rfl] at hcontra
    rw [hcontra] at hrest
    exact absurd hrest (by simp)
  · obtain ⟨n, hn, rfl, -⟩ := applyP1_some hhit; exact hn
  · obtain ⟨n, hn, rfl, -⟩ := applyP1_some hhit; exact hn
  · obtain ⟨n, hn, rfl, -⟩ := applyP1_some hhit; exact hn
  · obtain ⟨n, hn, rfl, -⟩ := applyP1_some hhit; exact hn
  · obtain ⟨n, hn, rfl, hstrip⟩ := applyP1_some hhit; exact ⟨hn, hstrip⟩
  · obtain ⟨n, hn, rfl, -⟩ := applyP1_some hhit; exact hn
  · obtain ⟨a, b, ha, hb, rfl⟩ := applyP2_some hhit; exact ⟨ha, hb⟩
  · obtain ⟨rfl, -⟩ := applyLit_some hhit; trivial
  · -- DATETIME is shadowed by DATE
    obtain ⟨rfl, rest, hrest⟩ := applyLit_some hhit
    have hb : stripPrefix? "DATE".data s = none := applyLit_none (hprev 22 (by omega))
    have hcontra := stripPrefix?_append_none "DATE".data "TIME".data s hb
    rw [show "DATE".data ++ "TIME".data = "DATETIME".data from rfl] at hcontra
    rw [hcontra] at hrest
    exact absurd hrest (by simp)
  · obtain ⟨rfl, -⟩ := applyLit_some hhit; trivial
  · obtain ⟨rfl, -⟩ := applyLit_some hhit; trivial
  · obtain ⟨rfl, -⟩ := applyLit_some hhit; trivial

/-! ## Round-trip evaluation -/

/-- Evaluating the round trip for a one-capture variant: render, upper-case,
and re-parse, where the matching rule sits at position `k` of the check
sequence and the earlier checks all fail on the rendered input. -/
theorem roundtrip_p1 (low pat : Chars) (k b n : Nat) (ctor : Nat → AttributeType)
    (hd : AttributeType.displayChars (ctor n) = some (low ++ (natDigits n ++ [')'])))
    (hmap : (low ++ (natDigits n ++ [')'])).map asciiUpper = pat ++ '(' :: (natDigits n ++ [')']))
    (hrule : rules.drop k = Rule.p1 pat b ctor :: rules.drop (k + 1))
    (hskip : ((rules.take k).all
      (fun r => (applyRule r (pat ++ '(' :: (natDigits n ++ [')']))).isNone)) = true)
    (hb : n ≤ b) :
    AttributeType.roundtrip (ctor n) = some (ctor n) := by
  unfold AttributeType.roundtrip
  rw [hd]
  show AttributeType.fromChars ((low ++ (natDigits n ++ [')'])).map asciiUpper) = some (ctor n)
  rw [hmap]
  exact fromChars_hit_p1 k pat b ctor n hrule hskip hb

/-! ## Claim theorems: the type-declaration parser -/

/-- C1: the claim says that for every raw type-declaration string at most one
pattern matches at offset 0, so that the result is order-independent, and
that `"DATETIME"` and `"BOOLEAN"` each match exactly one pattern and parse to
their own variant.  The code contradicts this: both inputs match two patterns
anchored at offset 0 (`DATE`/`DATETIME` resp. `BOOL`/`BOOLEAN`), and because
the shorter pattern is tried first, `"DATETIME"` parses to `Date` and
`"BOOLEAN"` to `Bool` — not to their own variants. -/
theorem claim_C1 :
    AttributeType.fromRaw "DATETIME" = some .Date ∧
    AttributeType.fromRaw "BOOLEAN" = some .Bool ∧
    matchCount "DATETIME".data = 2 ∧
    matchCount "BOOLEAN".data = 2 :=
  ⟨rfl, rfl, rfl, rfl⟩

/-- C2 (counterexample): `Decimal(10,2)` is a possible output of
`AttributeType::from` (from the input `"DECIMAL(10,2)"`), but its display
string is the misspelled `"decmimal(10,2)"`, whose upper-casing re-parses to
`none` rather than `some (Decimal 10 2)`. -/
theorem claim_C2_counterexample :
    AttributeType.fromRaw "DECIMAL(10,2)" = some (.Decimal 10 2) ∧
    AttributeType.roundtrip (.Decimal 10 2) = none :=
  ⟨rfl, rfl⟩

/-- C2 (amended): for every variant `v` that `AttributeType::from` can
output, re-parsing the upper-cased display of `v` yields `some v`, except
for the `Decimal` variants (display misspelled `decmimal`) and the `BigInt`
variants (parser pattern is case-sensitive `BigInt\(` while the display
upper-cases to `BIGINT(..)`), for which the re-parse yields `none`. -/
theorem claim_C2 (s : Chars) (v : AttributeType)
    (h : AttributeType.fromChars s = some v) : RoundtripOk v := by
  have hs := fromChars_shape s v h
  cases v with
  | Char n =>
    exact roundtrip_p1 "char(".data "CHAR".data 0 255 n .Char rfl
      (by simp only [List.map_append, map_asciiUpper_natDigits]; rfl) rfl rfl hs
  | VarChar n =>
    exact roundtrip_p1 "varchar(".data "VARCHAR".data 1 65535 n .VarChar rfl
      (by simp only [List.map_append, map_asciiUpper_natDigits]; rfl) rfl rfl hs
  | Binary n =>
    exact roundtrip_p1 "binary(".data "BINARY".data 2 255 n .Binary rfl
      (by simp only [List.map_append, map_asciiUpper_natDigits]; rfl) rfl rfl hs
  | VarBinary n =>
    exact roundtrip_p1 "varbinary(".data "VARBINARY".data 3 65535 n .VarBinary rfl
      (by simp only [List.map_append, map_asciiUpper_natDigits]; rfl) rfl rfl hs
  | TinyBlob => exact rfl
  | TinyText => exact rfl
  | Text => exact rfl
  | Blob n =>
    exact roundtrip_p1 "blob(".data "BLOB".data 7 65535 n .Blob rfl
      (by simp only [List.map_append, map_asciiUpper_natDigits]; rfl) rfl rfl hs
  | MediumText => exact rfl
  | MediumBlob => exact hs.elim
  | LongText => exact rfl
  | LongBlob => exact rfl
  | Enum l => exact hs.elim
  | Set l => exact hs.elim
  | Bit n =>
    exact roundtrip_p1 "bit(".data "BIT".data 11 255 n .Bit rfl
      (by simp only [List.map_append, map_asciiUpper_natDigits]; rfl) rfl rfl hs
  | TinyInt n =>
    exact roundtrip_p1 "tinyint(".data "TINYINT".data 12 255 n .TinyInt rfl
      (by simp only [List.map_append, map_asciiUpper_natDigits]; rfl) rfl rfl hs
  | Bool => exact rfl
  | Boolean => exact hs.elim
  | SmallInt n =>
    exact roundtrip_p1 "smallint(".data "SMALLINT".data 15 255 n .SmallInt rfl
      (by simp only [List.map_append, map_asciiUpper_natDigits]; rfl) rfl rfl hs
  | MediumInt n =>
    exact roundtrip_p1 "mediumint(".data "MEDIUMINT".data 16 255 n .MediumInt rfl
      (by simp only [List.map_append, map_asciiUpper_natDigits]; rfl) rfl rfl hs
  | Int n =>
    exact roundtrip_p1 "int(".data "INT".data 17 255 n .Int rfl
      (by simp only [List.map_append, map_asciiUpper_natDigits]; rfl) rfl rfl hs
  | BigInt n => exact rfl
  | Float n =>
    exact roundtrip_p1 "float(".data "FLOAT".data 20 255 n .Float rfl
      (by simp only [List.map_append, map_asciiUpper_natDigits]; rfl) rfl rfl hs
  | Decimal a b => exact rfl
  | Date => exact rfl
  | DateTime => exact hs.elim
  | TimeStamp => exact rfl
  | Time => exact rfl
  | Year => exact rfl

/-- C2 (witness): the `Text` variant, reachable from the input `"TEXT"`,
satisfies the round trip. -/
theorem claim_C2_witness : RoundtripOk AttributeType.Text :=
  claim_C2 "TEXT".data .Text rfl

/-- C10: on inputs without lower-case ASCII letters (the form the attribute
builder feeds the parser after `to_ascii_uppercase`), `AttributeType::from`
never returns a `BigInt` (its pattern is the case-sensitive `BigInt\(`), and
it never returns `MediumBlob` on any input (no pattern exists for it); in
particular `"BIGINT(20)"` and `"MEDIUMBLOB"` parse to `None`. -/
theorem claim_C10 :
    (∀ (s : Chars) (n : Nat), (∀ c ∈ s, c.isLower = false) →
      AttributeType.fromChars s ≠ some (.BigInt n)) ∧
    (∀ s : Chars, AttributeType.fromChars s ≠ some .MediumBlob) ∧
    AttributeType.fromRaw "BIGINT(20)" = none ∧
    AttributeType.fromRaw "MEDIUMBLOB" = none := by
  refine ⟨?_, ?_, rfl, rfl⟩
  · intro s n hlow h
    obtain ⟨-, rest, hrest⟩ := fromChars_shape s _ h
    have hpre := stripPrefix?_eq_some _ _ _ hrest
    have hi : 'i' ∈ s := by
      rw [← hpre]
      exact List.mem_append_left _ (List.mem_append_left _ (by decide))
    exact absurd (hlow 'i' hi) (by decide)
  · intro s h
    exact (fromChars_shape s _ h).elim

/-- C10 (witness): the all-upper-case input `"BIGINT(20)"` does not parse to
`BigInt 20`. -/
theorem claim_C10_witness :
    AttributeType.fromChars "BIGINT(20)".data ≠ some (.BigInt 20) :=
  claim_C10.1 "BIGINT(20)".data 20 (by decide)

/-! ## Insert lemmas -/

theorem data_append (a b : String) : (a ++ b).data = a.data ++ b.data := rfl

theorem foldl_insStep_fst_length (ps : List (String × String)) :
    ∀ c v : String, c.data.length ≤ ((ps.foldl insStep (c, v)).1).data.length := by
  induction ps with
  | nil => intro c v; simp
  | cons p ps ih =>
    intro c v
    refine le_trans ?_ (ih (c ++ "," ++ p.1) (v ++ "," ++ p.2))
    simp [data_append]

theorem insert_eq_none_iff (t : Table) (vs : List (String × String)) :
    t.insert vs = none ↔
      t.attributes.filter (fun a => (lookupKV vs a.name).isSome) = [] := by
  cases hf : t.attributes.filter (fun a => (lookupKV vs a.name).isSome) with
  | nil => simp [Table.insert, hf]
  | cons a as =>
    have hne : (((a :: as).map
        (fun attr => (attr.name, (lookupKV vs attr.name).getD ""))).foldl
          insStep ("", "")).1 ≠ "" := by
      intro hemp
      have hlen := foldl_insStep_fst_length
        ((as).map (fun attr => (attr.name, (lookupKV vs attr.name).getD "")))
        ("" ++ "," ++ a.name) ("" ++ "," ++ (lookupKV vs a.name).getD "")
      rw [List.map_cons, List.foldl_cons] at hemp
      simp only [insStep] at hemp
      rw [hemp] at hlen
      simp [data_append] at hlen
    simp only [Table.insert, hf]
    rw [if_neg (fun hand => hne hand.1)]
    simp

theorem insert_congr (t : Table) (vs1 vs2 : List (String × String))
    (hl : ∀ k, lookupKV vs1 k = lookupKV vs2 k) : t.insert vs1 = t.insert vs2 := by
  simp only [Table.insert]
  rw [show t.attributes.filter (fun a => (lookupKV vs1 a.name).isSome)
        = t.attributes.filter (fun a => (lookupKV vs2 a.name).isSome)
      from List.filter_congr (fun a _ => by rw [hl a.name])]
  rw [show (t.attributes.filter (fun a => (lookupKV vs2 a.name).isSome)).map
          (fun attr => (attr.name, (lookupKV vs1 attr.name).getD ""))
        = (t.attributes.filter (fun a => (lookupKV vs2 a.name).isSome)).map
          (fun attr => (attr.name, (lookupKV vs2 attr.name).getD ""))
      from List.map_congr_left (fun a _ => by rw [hl a.name])]

theorem lookup_perm (vs1 vs2 : List (String × String)) (hp : vs1.Perm vs2)
    (hnd : (vs1.map Prod.fst).Nodup) (k : String) :
    lookupKV vs1 k = lookupKV vs2 k := by
  induction hp with
  | nil => rfl
  | cons x htail ih =>
    next l₁ l₂ =>
    simp only [lookupKV]
    split
    · rfl
    · exact ih (by simpa using hnd.of_cons)
  | swap x y l =>
    have hxy : y.1 ≠ x.1 := by
      simp only [List.map_cons, List.nodup_cons, List.mem_cons] at hnd
      exact fun h => hnd.1 (Or.inl h)
    simp only [lookupKV]
    by_cases h1 : y.1 = k <;> by_cases h2 : x.1 = k
    · exact absurd (h1.trans h2.symm) hxy
    · simp [h1, h2]
    · simp [h1, h2]
    · simp [h1, h2]
  | trans h12 h23 ih1 ih2 =>
    exact (ih1 hnd).trans (ih2 (((h12.map Prod.fst).nodup_iff).mp hnd))

/-! ## Constraint-set lemmas -/

theorem eqImpl_FK_iff (c : Constraint) (t a : String) :
    Constraint.eqImpl c (.ForeignKey t a) = true ↔ ∃ t' a', c = .ForeignKey t' a' := by
  cases c <;> simp [Constraint.eqImpl]

theorem eqImpl_refl (c : Constraint) : Constraint.eqImpl c c = true := by
  cases c <;> rfl

theorem hashStream_inj {c' c : Constraint}
    (h : Constraint.hashStream c' = Constraint.hashStream c) : c' = c := by
  cases c' <;> cases c <;> simp_all [Constraint.hashStream]

/-- Under the derived `Hash` (which separates all distinct constraints,
payloads included), the hash-aware `HashSet::insert` deduplicates exactly on
structural equality: an equal-hash entry is necessarily the same constraint,
and it is then also `eq`-equal. -/
theorem insertHS_eq (s : List Constraint) (c : Constraint) :
    insertHS s c = if c ∈ s then s else s ++ [c] := by
  unfold insertHS
  by_cases hm : c ∈ s
  · rw [if_pos hm, if_pos]
    exact List.any_eq_true.mpr ⟨c, hm, by simp [eqImpl_refl]⟩
  · rw [if_neg hm, if_neg]
    intro hany
    obtain ⟨c', hc', hcond⟩ := List.any_eq_true.mp hany
    rw [Bool.and_eq_true, decide_eq_true_eq] at hcond
    exact hm (hashStream_inj hcond.1 ▸ hc')

/-! ## Claim theorems: statement synthesis -/

/-- C3: `render_create` on the one-attribute table yields exactly
`"CREATE TABLE table_1 (attr_1 text, PRIMARY KEY(attr_1))"`, and in general
it produces `"CREATE TABLE <name> (<attrs joined by ','>[, PRIMARY
KEY(<pk_name>)])"` with the primary-key clause present iff `primary_key` is
present (provided the attribute displays are defined and the primary-key
index is in range, which is where the source would panic). -/
theorem claim_C3 :
    tableOne.create = some "CREATE TABLE table_1 (attr_1 text, PRIMARY KEY(attr_1))" ∧
    (∀ (t : Table) (strs : List String),
      displayAll t.attributes = some strs →
      (t.primary_key = none →
        t.create = some ("CREATE TABLE " ++ t.name ++ " (" ++
          String.intercalate "," strs ++ ")")) ∧
      (∀ (i : Nat) (a : Attribute), t.primary_key = some i →
        t.attributes.get? i = some a →
        t.create = some ("CREATE TABLE " ++ t.name ++ " (" ++
          String.intercalate "," strs ++ ", PRIMARY KEY(" ++ a.name ++ "))"))) := by
  refine ⟨rfl, ?_⟩
  intro t strs hm
  constructor
  · intro hpk
    simp [Table.create, hm, hpk]
  · intro i a hpk hget
    rw [List.get?_eq_getElem?] at hget
    simp [Table.create, hm, hpk, hget]

/-- C3 (witness): the general rendering shape applied to the one-attribute
table. -/
theorem claim_C3_witness :
    tableOne.create = some ("CREATE TABLE " ++ "table_1" ++ " (" ++
      String.intercalate "," ["attr_1 text"] ++ ", PRIMARY KEY(" ++ "attr_1" ++ "))") :=
  (claim_C3.2 tableOne ["attr_1 text"] rfl).2 0
    { name := "attr_1", data_type := .Text, constraint := [] } rfl rfl

/-- C4: the two INSERT scenarios of the spec (all five values; only the
first three), with the exact statement strings. -/
theorem claim_C4 :
    tableFive.insert valuesAll =
      some "INSERT INTO table_1(PersonID,LastName,FirstName,Address,City) VALUES (23,'Doe','John','1st Street','Night City')" ∧
    tableFive.insert valuesThree =
      some "INSERT INTO table_1(PersonID,LastName,FirstName) VALUES (23,'Doe','John')" :=
  ⟨rfl, rfl⟩

/-- C5: `Table::insert` reads the value map only through key lookup and
iterates over the table's attribute declaration order, so two maps holding
the same key-value pairs (a permutation, with no duplicate keys) produce the
same result. -/
theorem claim_C5 (t : Table) (vs1 vs2 : List (String × String))
    (hp : vs1.Perm vs2) (hnd : (vs1.map Prod.fst).Nodup) :
    t.insert vs1 = t.insert vs2 :=
  insert_congr t vs1 vs2 (lookup_perm vs1 vs2 hp hnd)

/-- C5 (witness): swapping the two entries of a concrete value map leaves
the rendered insert statement unchanged. -/
theorem claim_C5_witness :
    tableFive.insert [("PersonID", "23"), ("LastName", "'Doe'")] =
      tableFive.insert [("LastName", "'Doe'"), ("PersonID", "23")] :=
  claim_C5 tableFive _ _ (List.Perm.swap _ _ _) (by decide)

/-- C6: `Table::insert` returns `none` exactly when no attribute of the
table occurs as a key of the value map — in particular always for the empty
map — and `some` otherwise. -/
theorem claim_C6 :
    (∀ (t : Table) (vs : List (String × String)),
      t.insert vs = none ↔ ∀ a ∈ t.attributes, lookupKV vs a.name = none) ∧
    (∀ t : Table, t.insert [] = none) := by
  have key : ∀ (t : Table) (vs : List (String × String)),
      t.insert vs = none ↔ ∀ a ∈ t.attributes, lookupKV vs a.name = none := by
    intro t vs
    rw [insert_eq_none_iff, List.filter_eq_nil_iff]
    constructor
    · intro h a ha
      have hns := h a ha
      cases hlk : lookupKV vs a.name with
      | none => rfl
      | some x => rw [hlk] at hns; simp at hns
    · intro h a ha
      simp [h a ha]
  exact ⟨key, fun t => (key t []).mpr (fun _ _ => rfl)⟩

/-- C6 (witness): the empty value map on the five-attribute table. -/
theorem claim_C6_witness : tableFive.insert [] = none :=
  (claim_C6.1 tableFive []).mpr (fun _ _ => rfl)

/-- C7 (counterexample): the claim's set-consequence fails on the program.
The source derives `Hash` over the `ForeignKey` payload while its
`PartialEq` ignores the payload, so `HashSet::insert` — which compares the
new element only against stored entries of equal hash — never compares two
differently-targeted foreign keys: inserting a second `ForeignKey` stores it
alongside the first even though the two compare equal under `eq`, and the
set then holds two foreign-key entries, not at most one. -/
theorem claim_C7_counterexample :
    Constraint.eqImpl (.ForeignKey "t1" "a1") (.ForeignKey "t2" "a2") = true ∧
    insertHS [Constraint.ForeignKey "t1" "a1"] (.ForeignKey "t2" "a2") =
      [Constraint.ForeignKey "t1" "a1", Constraint.ForeignKey "t2" "a2"] ∧
    countFK (insertHS [Constraint.ForeignKey "t1" "a1"] (.ForeignKey "t2" "a2")) = 2 :=
  ⟨rfl, rfl, rfl⟩

/-- C7 (amended): `Constraint`'s `PartialEq` compares discriminants only —
any two `ForeignKey` values are equal whatever their targets, and on the
payload-free kinds the equality coincides with structural equality.  But
because the derived `Hash` hashes the `ForeignKey` payload that this
equality ignores, `HashSet::insert` deduplicates on hash *and* equality —
effectively on structural equality: an exact duplicate is dropped, while any
constraint not already stored (in particular a `ForeignKey` with a new
target) is appended, so the set is not capped at one foreign-key entry. -/
theorem claim_C7 :
    (∀ t1 a1 t2 a2 : String,
      Constraint.eqImpl (.ForeignKey t1 a1) (.ForeignKey t2 a2) = true) ∧
    (∀ c1 c2 : Constraint, (∀ t a, c1 ≠ .ForeignKey t a) → (∀ t a, c2 ≠ .ForeignKey t a) →
      (Constraint.eqImpl c1 c2 = true ↔ c1 = c2)) ∧
    (∀ (s : List Constraint) (c : Constraint), c ∈ s → insertHS s c = s) ∧
    (∀ (s : List Constraint) (c : Constraint), c ∉ s → insertHS s c = s ++ [c]) := by
  refine ⟨fun _ _ _ _ => rfl, ?_, ?_, ?_⟩
  · intro c1 c2 h1 h2
    cases c1 <;> cases c2 <;>
      first
      | exact absurd rfl (h1 _ _)
      | exact absurd rfl (h2 _ _)
      | simp [Constraint.eqImpl]
  · intro s c hm
    rw [insertHS_eq, if_pos hm]
  · intro s c hm
    rw [insertHS_eq, if_neg hm]

/-- C7 (witness): an exact duplicate foreign key is dropped, while a
differently-targeted one is stored alongside the first. -/
theorem claim_C7_witness :
    insertHS [Constraint.ForeignKey "t1" "a1"] (.ForeignKey "t1" "a1") =
      [Constraint.ForeignKey "t1" "a1"] ∧
    insertHS [Constraint.ForeignKey "t1" "a1"] (.ForeignKey "t2" "a2") =
      [Constraint.ForeignKey "t1" "a1"] ++ [Constraint.ForeignKey "t2" "a2"] :=
  ⟨claim_C7.2.2.1 [Constraint.ForeignKey "t1" "a1"] (.ForeignKey "t1" "a1") (by decide),
   claim_C7.2.2.2 [Constraint.ForeignKey "t1" "a1"] (.ForeignKey "t2" "a2") (by decide)⟩

/-! ## Constraint-set membership lemmas (for the attribute builder) -/

theorem mem_insertC_iff (s : List Constraint) (c x : Constraint) :
    x ∈ insertC s c ↔
      x ∈ s ∨ (x = c ∧ s.any (fun c' => Constraint.eqImpl c' c) = false) := by
  unfold insertC
  split
  · next h => simp [h]
  · next h =>
    have hf : s.any (fun c' => Constraint.eqImpl c' c) = false := by simpa using h
    simp [List.mem_append, hf]

theorem mem_insertC_of_mem {s : List Constraint} {c x : Constraint} (h : x ∈ s) :
    x ∈ insertC s c := by
  unfold insertC
  split
  · exact h
  · exact List.mem_append_left _ h

theorem eqImpl_nonFK_right (c' c : Constraint) (hc : ∀ t a, c ≠ .ForeignKey t a)
    (he : Constraint.eqImpl c' c = true) : c' = c := by
  cases c' <;> cases c <;>
    first
    | rfl
    | exact absurd rfl (hc _ _)
    | simp [Constraint.eqImpl] at he

theorem mem_insertC_self_nonFK (s : List Constraint) (c : Constraint)
    (hc : ∀ t a, c ≠ .ForeignKey t a) : c ∈ insertC s c := by
  unfold insertC
  split
  · next h =>
    obtain ⟨c', hc', he⟩ := List.any_eq_true.mp h
    exact (eqImpl_nonFK_right c' c hc he) ▸ hc'
  · exact List.mem_append_right _ (by simp)

theorem nonFK_mem_foldl (fks : List (String × String)) :
    ∀ (acc : List Constraint) (x : Constraint), (∀ t a, x ≠ .ForeignKey t a) →
      (x ∈ fks.foldl (fun acc p => insertC acc (.ForeignKey p.1 p.2)) acc ↔ x ∈ acc) := by
  induction fks with
  | nil => intro acc x _; simp
  | cons p ps ih =>
    intro acc x hx
    rw [List.foldl_cons, ih _ x hx, mem_insertC_iff]
    constructor
    · rintro (h | ⟨rfl, -⟩)
      · exact h
      · exact absurd rfl (hx _ _)
    · exact Or.inl

theorem exFK_foldl (fks : List (String × String)) :
    ∀ acc : List Constraint, (∃ t a, Constraint.ForeignKey t a ∈ acc) →
      ∃ t a, Constraint.ForeignKey t a ∈
        fks.foldl (fun acc p => insertC acc (.ForeignKey p.1 p.2)) acc := by
  induction fks with
  | nil => intro acc h; simpa using h
  | cons p ps ih =>
    intro acc h
    obtain ⟨t, a, hm⟩ := h
    rw [List.foldl_cons]
    exact ih _ ⟨t, a, mem_insertC_of_mem hm⟩

theorem exFK_foldl_iff (fks : List (String × String)) (acc : List Constraint)
    (hacc : ∀ t a, Constraint.ForeignKey t a ∉ acc) :
    (∃ t a, Constraint.ForeignKey t a ∈
        fks.foldl (fun acc p => insertC acc (.ForeignKey p.1 p.2)) acc) ↔ fks ≠ [] := by
  cases fks with
  | nil =>
    simp only [List.foldl_nil, ne_eq, not_true_eq_false, iff_false]
    rintro ⟨t, a, hm⟩
    exact hacc t a hm
  | cons p ps =>
    have hany : acc.any (fun c' => Constraint.eqImpl c' (.ForeignKey p.1 p.2)) = false := by
      by_contra hb
      rw [Bool.not_eq_false, List.any_eq_true] at hb
      obtain ⟨c', hc', he⟩ := hb
      obtain ⟨t', a', rfl⟩ := (eqImpl_FK_iff c' p.1 p.2).mp he
      exact hacc t' a' hc'
    constructor
    · intro _; simp
    · intro _
      rw [List.foldl_cons]
      refine exFK_foldl ps _ ⟨p.1, p.2, ?_⟩
      unfold insertC
      rw [if_neg (by simp [hany])]
      exact List.mem_append_right _ (by simp)

theorem baseC_spec (nullable extra : String) :
    (Constraint.NotNull ∈ baseC nullable extra ↔ nullable = "NO") ∧
    (Constraint.AutoIncrement ∈ baseC nullable extra ↔ extra = "auto_increment") ∧
    Constraint.Unique ∉ baseC nullable extra ∧
    (∀ t a, Constraint.ForeignKey t a ∉ baseC nullable extra) := by
  unfold baseC
  by_cases h1 : nullable = "NO" <;> by_cases h2 : extra = "auto_increment" <;>
    simp [h1, h2, insertC, Constraint.eqImpl]

theorem buildConstraints_spec (nullable key extra : String) (fks : List (String × String)) :
    (Constraint.NotNull ∈ buildConstraints nullable key extra fks ↔ nullable = "NO") ∧
    (Constraint.AutoIncrement ∈ buildConstraints nullable key extra fks ↔
      extra = "auto_increment") ∧
    (Constraint.Unique ∈ buildConstraints nullable key extra fks ↔ key = "UNI") ∧
    ((∃ t a, Constraint.ForeignKey t a ∈ buildConstraints nullable key extra fks) ↔
      (key = "MUL" ∧ fks ≠ [])) := by
  obtain ⟨hb1, hb2, hb3, hb4⟩ := baseC_spec nullable extra
  unfold buildConstraints
  by_cases h3 : key = "UNI"
  · rw [if_pos h3]
    refine ⟨?_, ?_, ?_, ?_⟩
    · rw [mem_insertC_iff]; simp [hb1]
    · rw [mem_insertC_iff]; simp [hb2]
    · simp [mem_insertC_self_nonFK (baseC nullable extra) .Unique
        (fun _ _ h => Constraint.noConfusion h), h3]
    · refine iff_of_false ?_ ?_
      · rintro ⟨t, a, hm⟩
        rw [mem_insertC_iff] at hm
        rcases hm with hm | ⟨hm, -⟩
        · exact hb4 t a hm
        · exact Constraint.noConfusion hm
      · rintro ⟨hk, -⟩
        rw [h3] at hk
        exact absurd hk (by decide)
  · rw [if_neg h3]
    by_cases h4 : key = "MUL"
    · rw [if_pos h4]
      refine ⟨?_, ?_, ?_, ?_⟩
      · rw [nonFK_mem_foldl fks _ _ (fun _ _ h => Constraint.noConfusion h)]; exact hb1
      · rw [nonFK_mem_foldl fks _ _ (fun _ _ h => Constraint.noConfusion h)]; exact hb2
      · rw [nonFK_mem_foldl fks _ _ (fun _ _ h => Constraint.noConfusion h)]
        exact iff_of_false hb3 h3
      · rw [exFK_foldl_iff fks _ hb4]
        simp [h4]
    · rw [if_neg h4]
      refine ⟨hb1, hb2, iff_of_false hb3 h3, iff_of_false ?_ ?_⟩
      · rintro ⟨t, a, hm⟩
        exact hb4 t a hm
      · rintro ⟨hk, -⟩
        exact h4 hk

/-! ## Claim theorems: the attribute builder -/

/-- C8 (counterexample): the claim says an extra flag that *contains* the
marker `"auto_increment"` adds `AutoIncrement`, but the code compares the
flag for equality: the extra flag `"DEFAULT_GENERATED auto_increment"`
contains the marker as a substring, yet the built attribute carries no
constraint at all. -/
theorem claim_C8_counterexample :
    "auto_increment".data.IsInfix "DEFAULT_GENERATED auto_increment".data ∧
    Attribute.fromRow ⟨"c1", "int(11)", "", "YES", "", "", "DEFAULT_GENERATED auto_increment"⟩
        [] =
      some { name := "c1", data_type := .Int 11, constraint := [] } ∧
    Constraint.AutoIncrement ∉ ([] : List Constraint) :=
  ⟨⟨"DEFAULT_GENERATED ".data, [], rfl⟩, rfl, by simp⟩

/-- C8 (amended): for every metadata row whose type string parses, the built
constraint set contains `NotNull` iff the nullability flag equals `"NO"`,
`AutoIncrement` iff the extra flag *equals* `"auto_increment"` (not merely
contains it), `Unique` iff the key flag equals `"UNI"`, and a `ForeignKey`
iff the key flag equals `"MUL"` and the foreign-key lookup returned at least
one target; no other constraint kinds are ever added (the four memberships
exhaust the `Constraint` type). -/
theorem claim_C8 (row : MetaRow) (fks : List (String × String)) (attr : Attribute)
    (h : Attribute.fromRow row fks = some attr) :
    (Constraint.NotNull ∈ attr.constraint ↔ row.nullable = "NO") ∧
    (Constraint.AutoIncrement ∈ attr.constraint ↔ row.extra = "auto_increment") ∧
    (Constraint.Unique ∈ attr.constraint ↔ row.key = "UNI") ∧
    ((∃ t a, Constraint.ForeignKey t a ∈ attr.constraint) ↔
      (row.key = "MUL" ∧ fks ≠ [])) := by
  have hc : attr.constraint = buildConstraints row.nullable row.key row.extra fks := by
    unfold Attribute.fromRow at h
    cases hft : AttributeType.fromRaw (toUpper row.colType) with
    | none => rw [hft] at h; exact absurd h (by simp)
    | some dt =>
      rw [hft] at h
      injection h with h
      exact congrArg Attribute.constraint h.symm
  rw [hc]
  exact buildConstraints_spec row.nullable row.key row.extra fks

/-- C8 (witness): a parsed `int(11)` column with nullability `"NO"` and key
flag `"UNI"` builds exactly the constraints `{NotNull, Unique}`. -/
theorem claim_C8_witness :
    (Constraint.NotNull ∈ [Constraint.NotNull, Constraint.Unique] ↔ "NO" = "NO") ∧
    (Constraint.AutoIncrement ∈ [Constraint.NotNull, Constraint.Unique] ↔
      "" = "auto_increment") ∧
    (Constraint.Unique ∈ [Constraint.NotNull, Constraint.Unique] ↔ "UNI" = "UNI") ∧
    ((∃ t a, Constraint.ForeignKey t a ∈ [Constraint.NotNull, Constraint.Unique]) ↔
      ("UNI" = "MUL" ∧ ([] : List (String × String)) ≠ [])) :=
  claim_C8 ⟨"id", "int(11)", "", "NO", "UNI", "", ""⟩ []
    { name := "id", data_type := .Int 11, constraint := [.NotNull, .Unique] } rfl

/-! ## Table-builder lemmas -/

theorem buildAux_fst (rows : List (Option Attribute × Bool)) :
    ∀ (pk : Option Nat) (col : Nat), (buildAux rows pk col).1 = rows.filterMap Prod.fst := by
  induction rows with
  | nil => intro pk col; rfl
  | cons r rest ih =>
    intro pk col
    obtain ⟨oa, b⟩ := r
    cases oa with
    | none => simp [buildAux, ih, List.filterMap_cons]
    | some a =>
      cases b with
      | true => simp [buildAux, ih, List.filterMap_cons]
      | false => simp [buildAux, ih, List.filterMap_cons]

theorem buildAux_snd_lt (rows : List (Option Attribute × Bool)) :
    ∀ (pk : Option Nat) (col i : Nat), (buildAux rows pk col).2 = some i →
      pk = some i ∨ i < col + (buildAux rows pk col).1.length := by
  induction rows with
  | nil => intro pk col i h; exact Or.inl h
  | cons r rest ih =>
    intro pk col i h
    obtain ⟨oa, b⟩ := r
    cases oa with
    | none => exact ih pk col i h
    | some a =>
      cases b with
      | true =>
        have h' : (buildAux rest (some col) col).2 = some i := h
        have hfst : (buildAux ((some a, true) :: rest) pk col).1
            = a :: (buildAux rest (some col) col).1 := rfl
        rcases ih (some col) col i h' with heq | hlt
        · right
          injection heq with heq
          rw [hfst]
          simp only [List.length_cons]
          omega
        · right
          rw [hfst]
          simp only [List.length_cons]
          omega
      | false =>
        have h' : (buildAux rest pk (col + 1)).2 = some i := h
        have hfst : (buildAux ((some a, false) :: rest) pk col).1
            = a :: (buildAux rest pk (col + 1)).1 := rfl
        rcases ih pk (col + 1) i h' with hpk | hlt
        · exact Or.inl hpk
        · right
          rw [hfst]
          simp only [List.length_cons]
          omega

theorem buildAux_no_pri (rows : List (Option Attribute × Bool))
    (hall : ∀ p ∈ rows, p.2 = false) :
    ∀ (pk : Option Nat) (col : Nat), (buildAux rows pk col).2 = pk := by
  induction rows with
  | nil => intro pk col; rfl
  | cons r rest ih =>
    intro pk col
    obtain ⟨oa, b⟩ := r
    have hb : b = false := hall (oa, b) (by simp)
    subst hb
    have ih' := ih (fun p hp => hall p (by simp [hp]))
    cases oa with
    | none => exact ih' pk col
    | some a => exact ih' pk (col + 1)

theorem buildAux_unique_some (pre : List (Option Attribute × Bool))
    (hpre : ∀ p ∈ pre, p.2 = false) (post : List (Option Attribute × Bool))
    (hpost : ∀ p ∈ post, p.2 = false) (a : Attribute) :
    ∀ (pk : Option Nat) (col : Nat),
    (buildAux (pre ++ (some a, true) :: post) pk col).2 =
      some (col + (pre.filterMap Prod.fst).length) := by
  induction pre with
  | nil =>
    intro pk col
    have := buildAux_no_pri post hpost (some col) col
    simpa using this
  | cons r pre ih =>
    intro pk col
    obtain ⟨oa, b⟩ := r
    have hb : b = false := hpre (oa, b) (by simp)
    subst hb
    have ih' := ih (fun p hp => hpre p (by simp [hp]))
    cases oa with
    | none =>
      simp only [List.filterMap_cons]
      exact ih' pk col
    | some x =>
      have h2 : (buildAux ((some x, false) :: pre ++ (some a, true) :: post) pk col).2
          = some (col + 1 + (pre.filterMap Prod.fst).length) := ih' pk (col + 1)
      rw [h2]
      simp only [List.filterMap_cons, List.length_cons]
      exact congrArg some (by omega)

theorem buildAux_unique_none (pre : List (Option Attribute × Bool))
    (hpre : ∀ p ∈ pre, p.2 = false) (post : List (Option Attribute × Bool))
    (hpost : ∀ p ∈ post, p.2 = false) :
    ∀ (pk : Option Nat) (col : Nat),
    (buildAux (pre ++ (none, true) :: post) pk col).2 = pk := by
  induction pre with
  | nil => intro pk col; exact buildAux_no_pri post hpost pk col
  | cons r pre ih =>
    intro pk col
    obtain ⟨oa, b⟩ := r
    have hb : b = false := hpre (oa, b) (by simp)
    subst hb
    have ih' := ih (fun p hp => hpre p (by simp [hp]))
    cases oa with
    | none => exact ih' pk col
    | some x => exact ih' pk (col + 1)

/-! ## Claim theorems: the table builder -/

/-- C9: every table the builder produces has a valid `primary_key`: when it
is `some i`, `i` indexes into `attributes`; and with a single row flagged
`"PRI"`, dropping unrecognised-type rows keeps the recorded index pointing
at that row's attribute within the surviving sequence, while a dropped
primary-key row leaves `primary_key` as `none`. -/
theorem claim_C9 :
    (∀ (name : String) (rows : List MetaRow) (fkOf : MetaRow → List (String × String))
      (i : Nat), (Table.fromDb name rows fkOf).primary_key = some i →
      i < (Table.fromDb name rows fkOf).attributes.length) ∧
    (∀ (name : String) (pre : List MetaRow) (r : MetaRow) (post : List MetaRow)
      (fkOf : MetaRow → List (String × String)),
      (∀ p ∈ pre, p.key ≠ "PRI") → (∀ p ∈ post, p.key ≠ "PRI") → r.key = "PRI" →
      (∀ a : Attribute, Attribute.fromRow r (fkOf r) = some a →
        (Table.fromDb name (pre ++ r :: post) fkOf).primary_key =
          some ((pre.filterMap (fun p => Attribute.fromRow p (fkOf p))).length) ∧
        (Table.fromDb name (pre ++ r :: post) fkOf).attributes.get?
          ((pre.filterMap (fun p => Attribute.fromRow p (fkOf p))).length) = some a) ∧
      (Attribute.fromRow r (fkOf r) = none →
        (Table.fromDb name (pre ++ r :: post) fkOf).primary_key = none)) := by
  constructor
  · intro name rows fkOf i h
    rcases buildAux_snd_lt
        (rows.map (fun p => (Attribute.fromRow p (fkOf p), p.key == "PRI"))) none 0 i h
      with h' | h'
    · exact absurd h' (by simp)
    · simpa using h'
  · intro name pre r post fkOf hpre hpost hkey
    have hmap : (pre ++ r :: post).map
          (fun p => (Attribute.fromRow p (fkOf p), p.key == "PRI"))
        = pre.map (fun p => (Attribute.fromRow p (fkOf p), p.key == "PRI"))
          ++ (Attribute.fromRow r (fkOf r), r.key == "PRI")
            :: post.map (fun p => (Attribute.fromRow p (fkOf p), p.key == "PRI")) := by
      simp
    have hpre' : ∀ p ∈ pre.map (fun p => (Attribute.fromRow p (fkOf p), p.key == "PRI")),
        p.2 = false := by
      intro p hp
      obtain ⟨q, hq, rfl⟩ := List.mem_map.mp hp
      exact beq_eq_false_iff_ne.mpr (hpre q hq)
    have hpost' : ∀ p ∈ post.map (fun p => (Attribute.fromRow p (fkOf p), p.key == "PRI")),
        p.2 = false := by
      intro p hp
      obtain ⟨q, hq, rfl⟩ := List.mem_map.mp hp
      exact beq_eq_false_iff_ne.mpr (hpost q hq)
    have hfm : (pre.map (fun p => (Attribute.fromRow p (fkOf p), p.key == "PRI"))).filterMap
          Prod.fst
        = pre.filterMap (fun p => Attribute.fromRow p (fkOf p)) := by
      rw [List.filterMap_map]
      rfl
    have hkey' : (r.key == "PRI") = true := beq_iff_eq.mpr hkey
    constructor
    · intro a ha
      constructor
      · show (buildAux ((pre ++ r :: post).map
            (fun p => (Attribute.fromRow p (fkOf p), p.key == "PRI"))) none 0).2 = _
        rw [hmap, ha, hkey',
          buildAux_unique_some _ hpre' _ hpost' a none 0, hfm]
        exact congrArg some (by omega)
      · show ((buildAux ((pre ++ r :: post).map
            (fun p => (Attribute.fromRow p (fkOf p), p.key == "PRI"))) none 0).1).get? _
          = some a
        rw [buildAux_fst, hmap, ha, hkey', List.filterMap_append, hfm]
        simp only [List.filterMap_cons]
        rw [List.get?_eq_getElem?, List.getElem?_append_right (le_refl _)]
        simp
    · intro hnone
      show (buildAux ((pre ++ r :: post).map
          (fun p => (Attribute.fromRow p (fkOf p), p.key == "PRI"))) none 0).2 = none
      rw [hmap, hnone, hkey']
      exact buildAux_unique_none _ hpre' _ hpost' none 0

/-- C9 (witness): a two-row table whose second row is the primary key: the
recorded index is 1 and points at that attribute. -/
theorem claim_C9_witness :
    (Table.fromDb "t" [⟨"b", "varchar(20)", "", "YES", "", "", ""⟩,
        ⟨"a", "int(11)", "", "YES", "PRI", "", ""⟩] (fun _ => [])).primary_key = some 1 ∧
    (Table.fromDb "t" [⟨"b", "varchar(20)", "", "YES", "", "", ""⟩,
        ⟨"a", "int(11)", "", "YES", "PRI", "", ""⟩] (fun _ => [])).attributes.get? 1 =
      some { name := "a", data_type := .Int 11, constraint := [] } :=
  (claim_C9.2 "t" [⟨"b", "varchar(20)", "", "YES", "", "", ""⟩]
      ⟨"a", "int(11)", "", "YES", "PRI", "", ""⟩ [] (fun _ => [])
      (by intro p hp; rw [List.mem_singleton] at hp; subst hp; decide)
      (by intro p hp; exact absurd hp (List.not_mem_nil p)) rfl).1
    { name := "a", data_type := .Int 11, constraint := [] } rfl

end DbInterface
